import Mathlib

/-!
Verification of the per-file scan worker of `cmd/gogrep` (worker.go).

The embedding models file bytes as `List Nat` (byte values), the external
collaborators (file system, Go parser, pattern matcher, filter evaluator,
position table) as explicit function parameters or precomputed data carried
by each matcher hit, and the worker's mutable state as a `worker` structure
threaded through the functions.
-/

/-- Modelled from the spec: the repository's `bool3` tri-state flag type
(unset / true / false); the type itself lives outside the given source file.
"Tri-state, not boolean, because don't-care must be distinguishable from an
explicit requirement." -/
inductive Bool3 where
  | bool3unset
  | bool3true
  | bool3false
deriving DecidableEq, BEq, Repr

/-- Modelled from the spec: `bool3.Eq(v bool)` — whether the tri-state flag is
set and requires exactly the boolean `v`; an unset flag matches nothing (the
callers guard on unset before calling). -/
def Bool3.Eq : Bool3 → Bool → Bool
  | .bool3true, v => v
  | .bool3false, v => !v
  | .bool3unset, _ => false

/-- Modelled from the spec: the tri-state prefilter conditions
("must be a test file", "must be an autogenerated file"). -/
structure FilterHints where
  testCond : Bool3
  autogenCond : Bool3
deriving DecidableEq, Repr

/-- Modelled from the spec: the secondary filter expression's operation tag;
the distinguished no-op value means "always accept". -/
inductive FilterOp where
  | OpNop
  | OpOther
deriving DecidableEq, BEq, Repr

/-- Modelled from the spec: the opaque filter expression; only its `Op` tag is
inspected by the worker (`filters.Expr`). -/
structure FilterExpr where
  Op : FilterOp
deriving DecidableEq, Repr

/-- A captured sub-node as stored in a match record (`capturedNode` in the
source): byte start/end offsets of the captured sub-tree. The opaque
matcher-provided payload is irrelevant to the verified properties. -/
structure capturedNode where
  startOffset : Nat
  endOffset : Nat
deriving DecidableEq, Repr

/-- A matcher-provided captured node (`gogrep.CapturedNode`), with the
position-table lookups of its `Pos`/`End` already performed (the position
table is an external collaborator). -/
structure CapturedNodeG where
  startOffset : Nat
  endOffset : Nat
deriving DecidableEq, Repr

/-- One accepted-or-not matcher hit, as delivered to the `MatchNode` callback
during the walk: the position-table data of the matched node (`start.Line`,
`start.Offset`, `end.Offset`) and the captures. -/
structure Hit where
  line : Nat
  startOffset : Nat
  endOffset : Nat
  capture : List CapturedNodeG
deriving DecidableEq, Repr

/-- The `match` record of the source (renamed: `match` is a Lean keyword).
Text is kept as raw bytes. -/
structure Match where
  filename : String
  line : Nat
  startOffset : Nat
  endOffset : Nat
  capture : List capturedNode
  text : List Nat
  matchStartOffset : Nat
  matchLength : Nat
deriving DecidableEq, Repr

/-- The worker state (`worker` struct of the source). The opaque external
handles (`heatmap`, `filterInfo`, compiled pattern `m`, `gogrepState`) are
not represented; the file-set is an opaque generation token (`Nat`) since
only its replacement is observable here. -/
structure worker where
  id : Nat
  countMode : Bool
  needCapture : Bool
  needMatchLine : Bool
  workDir : String
  heatmapFilenameSet : Option (List String)
  filterHints : FilterHints
  filterExpr : FilterExpr
  fset : Nat
  matches' : List Match
  errors : List String
  data : List Nat
  filename : String
  pkgName : String
  typeName : String
  funcName : String
  closureID : Nat
  n : Nat
deriving DecidableEq, Repr

/-- The parsed file (`*ast.File`) as far as the worker inspects it: the
package name and the comment groups (each group a list of comment texts,
`c.Text` including the comment markers), present when comments were parsed. -/
structure ParsedFile where
  pkgName : String
  comments : List (List String)
deriving DecidableEq, Repr

/-- Go slice `data[a:b]` as a total function (Go panics when
`a > b` or `b > len(data)`; all verified uses are within those bounds). -/
def sliceBytes (data : List Nat) (a b : Nat) : List Nat :=
  (data.drop a).take (b - a)

/-- `strings.Contains s pat`: `pat` occurs as a contiguous substring of `s`. -/
def containsSub (s pat : String) : Bool :=
  decide (pat.toList <:+: s.toList)

/-- `strings.ToLower` (ASCII-relevant part), character by character. -/
def strToLower (s : String) : String :=
  String.mk (s.toList.map Char.toLower)

/-- `strings.HasSuffix`. -/
def hasSuffix (s suffix : String) : Bool :=
  decide (suffix.toList <:+ s.toList)

/-- `filepath.Base`: strip trailing separators, then keep everything after the
last separator; empty path gives ".", all-separators path gives "/". -/
def baseName (path : String) : String :=
  if path = "" then "."
  else
    let cs := (path.toList.reverse.dropWhile (fun c => c = '/')).reverse
    let last := (cs.reverse.takeWhile (fun c => c != '/')).reverse
    if last.isEmpty then "/" else String.mk last

/-- `isNewline` from `initMatchText`: LF or CR. -/
def isNewline (b : Nat) : Bool :=
  b == 10 || b == 13

/-! ## Autogeneration detector (`isAutogenFile`, `isAutogenComment`) -/

/-- A single ASCII apostrophe, used inside the do-not-edit phrase. -/
def apostrophe : String :=
  String.singleton (Char.ofNat 39)

/-- The "code generation" signal of `isAutogenComment`, applied to one
comment line: the lowercased text contains one of the two phrases. -/
def hasGenPhrase (c : String) : Bool :=
  containsSub (strToLower c) (" code generated ") ||
    containsSub (strToLower c) (" generated by ")

/-- The "do not edit" signal of `isAutogenComment`, applied to one comment
line: the lowercased text contains one of the two phrases. -/
def hasDoNotEditPhrase (c : String) : Bool :=
  containsSub (strToLower c) ("do not edit") ||
    containsSub (strToLower c) ("don" ++ apostrophe ++ "t edit")

/-- The loop of `isAutogenComment` over a comment group's lines, carrying the
two sticky signal flags; returns true as soon as both signals are set. -/
def autogenLoop : List String → Bool → Bool → Bool
  | [], _, _ => false
  | c :: rest, generated, doNotEdit =>
    let generated := if !generated then hasGenPhrase c else generated
    let doNotEdit := if !doNotEdit then hasDoNotEditPhrase c else doNotEdit
    if generated && doNotEdit then true else autogenLoop rest generated doNotEdit

/-- `isAutogenComment`: a comment group is a generation marker iff the loop
over its lines sets both signals. -/
def isAutogenComment (comment : List String) : Bool :=
  autogenLoop comment false false

/-- `isAutogenFile`: the first comment group that is a generation marker
flags the whole file. -/
def isAutogenFile : List (List String) → Bool
  | [] => false
  | comment :: rest =>
    if isAutogenComment comment then true else isAutogenFile rest

/-! ## Match materializer (`initMatchCapture`, `initMatchText`) -/

/-- `initMatchCapture`: record the byte offsets of every captured sub-node. -/
def initMatchCapture (m : Match) (capture : List CapturedNodeG) : Match :=
  { m with capture := capture.map (fun c =>
      { startOffset := c.startOffset, endOffset := c.endOffset }) }

/-- The backward scan of `initMatchText`: starting at `startPos`, decrement
while positive; on seeing a newline byte stop, stepping one past it unless it
was seen at `startPos` itself. The recursion argument is the current value of
`start`. -/
def expandStartLoop (data : List Nat) (startPos : Nat) : Nat → Nat
  | 0 => 0
  | s + 1 =>
    if isNewline (data.getD (s + 1) 0) then
      (if s + 1 = startPos then s + 1 else s + 2)
    else expandStartLoop data startPos s

/-- The expanded start offset of a match under line-expansion. -/
def expandStart (data : List Nat) (startPos : Nat) : Nat :=
  expandStartLoop data startPos startPos

/-- The forward scan of `initMatchText`: starting at `endPos`, increment while
below the buffer length until a newline byte is seen. `fuel` bounds the
remaining steps (`data.length - endPos` at the call site). -/
def expandEndLoop (data : List Nat) : Nat → Nat → Nat
  | 0, e => e
  | fuel + 1, e =>
    if e < data.length then
      (if isNewline (data.getD e 0) then e else expandEndLoop data fuel (e + 1))
    else e

/-- The expanded end offset of a match under line-expansion. -/
def expandEnd (data : List Nat) (endPos : Nat) : Nat :=
  expandEndLoop data (data.length - endPos) endPos

/-- `initMatchText`: without line-expansion the text is exactly the match's
bytes; with line-expansion the offsets are widened by the two scans and the
matched sub-range within the text is recorded. -/
def initMatchText (needMatchLine : Bool) (data : List Nat) (m : Match)
    (startPos endPos : Nat) : Match :=
  if !needMatchLine then
    { m with
      text := sliceBytes data startPos endPos,
      matchStartOffset := 0,
      matchLength := (sliceBytes data startPos endPos).length }
  else
    let start := expandStart data startPos
    let numEnd := expandEnd data endPos
    { m with
      text := sliceBytes data start numEnd,
      matchStartOffset := startPos - start,
      matchLength := endPos - startPos }

/-! ## Match acceptor (`worker.Visit`) -/

/-- The acceptance test of `Visit`: the filter expression is the no-op, or
the external filter evaluator accepts the hit. -/
def acceptHit (applyFilter : Hit → Bool) (op : FilterOp) (h : Hit) : Bool :=
  op == FilterOp.OpNop || applyFilter h

/-- The match record built by `Visit` for an accepted hit (fields the source
builds inline, then `initMatchCapture` when capture is needed, then
`initMatchText`). -/
def buildMatch (w : worker) (h : Hit) : Match :=
  let m : Match :=
    { filename := w.filename, line := h.line,
      startOffset := h.startOffset, endOffset := h.endOffset,
      capture := [], text := [], matchStartOffset := 0, matchLength := 0 }
  let m := if w.needCapture then initMatchCapture m h.capture else m
  initMatchText w.needMatchLine w.data m h.startOffset h.endOffset

/-- The body of the `MatchNode` callback in `Visit`, for a single hit: on
acceptance increment the per-file counter, then (unless in count mode) build
and append a match record. -/
def visitHit (applyFilter : Hit → Bool) (w : worker) (h : Hit) : worker :=
  if !acceptHit applyFilter w.filterExpr.Op h then w
  else
    let w := { w with n := w.n + 1 }
    if w.countMode then w
    else { w with matches' := w.matches' ++ [buildMatch w h] }

/-- The tree walk: the external walker visits every node once and the matcher
fires the callback per hit; the flattened hit sequence is folded through the
callback body. -/
def walkVisit (applyFilter : Hit → Bool) (w : worker) (hits : List Hit) : worker :=
  hits.foldl (visitHit applyFilter) w

/-- The number of hits of a sequence that pass the acceptance test. -/
def countAccepted (applyFilter : Hit → Bool) (op : FilterOp) (hits : List Hit) : Nat :=
  (hits.filter (acceptHit applyFilter op)).length

/-! ## Eligibility prefilter and `grepFile` -/

/-- `strings.HasSuffix(filename, "_test.go")`. -/
def isTestFile (filename : String) : Bool :=
  hasSuffix filename ("_test.go")

/-- The heatmap prefilter guard of `grepFile`: a configured filename set that
does not contain the file's base name skips the file; an absent set never
skips. -/
def heatmapSkip (w : worker) (filename : String) : Bool :=
  match w.heatmapFilenameSet with
  | some set => !(set.contains (baseName filename))
  | none => false

/-- The test-file prefilter guard of `grepFile`: a set tri-state condition
that disagrees with the filename's test-suffix status skips the file. -/
def testSkip (w : worker) (filename : String) : Bool :=
  (w.filterHints.testCond != Bool3.bool3unset) &&
    !(w.filterHints.testCond.Eq (isTestFile filename))

/-- The autogeneration guard of `grepFile`: a set tri-state condition that
disagrees with the autogeneration detector skips the (already parsed) file. -/
def autogenSkip (w : worker) (root : ParsedFile) : Bool :=
  (w.filterHints.autogenCond != Bool3.bool3unset) &&
    !(w.filterHints.autogenCond.Eq (isAutogenFile root.comments))

/-- `worker.parseFile`: the external parser applied to the raw bytes, with
comments requested exactly when the autogeneration condition is set. The
parser is an external collaborator, passed as `parse`. -/
def parseFile (w : worker) (parse : List Nat → Bool → Except String ParsedFile)
    (data : List Nat) : Except String ParsedFile :=
  parse data (w.filterHints.autogenCond != Bool3.bool3unset)

/-- `grepFile` from the successful read onward: replace the file set, parse,
apply the autogeneration guard, install the per-file scratch fields, reset the
counter, walk the tree, and return the final count. `newFset` is the fresh
file set token, `hitsOf` the matcher's hit sequence for the parsed tree, and
`applyFilter` the external filter evaluator. -/
def grepFileLoaded (w : worker) (newFset : Nat)
    (parse : List Nat → Bool → Except String ParsedFile)
    (hitsOf : ParsedFile → List Hit) (applyFilter : Hit → Bool)
    (filename : String) (data : List Nat) : worker × Nat × Option String :=
  let w := { w with fset := newFset }
  match parseFile w parse data with
  | .error e => (w, 0, some e)
  | .ok root =>
    if autogenSkip w root then (w, 0, none)
    else
      let w := { w with data := data, filename := filename,
                        pkgName := root.pkgName, n := 0 }
      let w := walkVisit applyFilter w (hitsOf root)
      (w, w.n, none)

/-- `grepFile` past the two prefilter guards: read the file (the file system
is the external `fs`), wrapping a read failure, then continue with the bytes. -/
def grepFileProceed (w : worker) (newFset : Nat)
    (fs : String → Except String (List Nat))
    (parse : List Nat → Bool → Except String ParsedFile)
    (hitsOf : ParsedFile → List Hit) (applyFilter : Hit → Bool)
    (filename : String) : worker × Nat × Option String :=
  match fs filename with
  | .error e => (w, 0, some ("read file: " ++ e))
  | .ok data => grepFileLoaded w newFset parse hitsOf applyFilter filename data

/-- `worker.grepFile`: the two prefilter guards, then the read/parse/walk
pipeline. The returned triple is (final worker state, match count, error). -/
def grepFile (w : worker) (newFset : Nat)
    (fs : String → Except String (List Nat))
    (parse : List Nat → Bool → Except String ParsedFile)
    (hitsOf : ParsedFile → List Hit) (applyFilter : Hit → Bool)
    (filename : String) : worker × Nat × Option String :=
  if heatmapSkip w filename then (w, 0, none)
  else if testSkip w filename then (w, 0, none)
  else grepFileProceed w newFset fs parse hitsOf applyFilter filename

/-! ## Text extraction fallback (`worker.nodeText`) -/

/-- A syntax node as `nodeText` distinguishes them: the empty node-sequence
placeholder, a comment node (with its stored text as bytes), or any other
node. Offsets are the position-table lookups of `Pos`/`End` (Go `int`, may be
invalid for synthesized positions); `printed` is the generic printer's output
for the node (`none` models a printer error, which the source turns into a
panic). -/
inductive GNode where
  | emptySlice
  | comment (text : List Nat) (pos endp : Int)
  | other (pos endp : Int) (printed : Option (List Nat))
deriving DecidableEq, Repr

/-- `gogrep.IsEmptyNodeSlice`. -/
def isEmptyNodeSlice : GNode → Bool
  | .emptySlice => true
  | _ => false

/-- The position-table start offset of a node (unused for the empty
placeholder, which `nodeText` filters out first). -/
def nodePos : GNode → Int
  | .emptySlice => 0
  | .comment _ p _ => p
  | .other p _ _ => p

/-- The position-table end offset of a node. -/
def nodeEnd : GNode → Int
  | .emptySlice => 0
  | .comment _ _ e => e
  | .other _ e _ => e

/-- The generic printer (`printer.Fprint`) applied to a node; `none` is a
rendering error. The printer panics on comments (as the source notes), and
the empty placeholder never reaches it. -/
def printNode : GNode → Option (List Nat)
  | .other _ _ printed => printed
  | _ => none

/-- The offset validity check of `nodeText`:
`(from >= 0 && from < len(src)) && (to >= 0 && to < len(src))`. -/
def validOffsets (data : List Nat) (a b : Int) : Prop :=
  0 ≤ a ∧ a < data.length ∧ 0 ≤ b ∧ b < data.length

instance (data : List Nat) (a b : Int) : Decidable (validOffsets data a b) := by
  unfold validOffsets; infer_instance

/-- Go slice `src[a:b]` on `int` offsets; `none` models the slice panic when
`a > b` (the bounds against `len` are checked by the caller). -/
def goSliceBytes (data : List Nat) (a b : Int) : Option (List Nat) :=
  if a ≤ b then some (sliceBytes data a.toNat b.toNat) else none

/-- `worker.nodeText`: return no bytes for the empty placeholder; slice the
raw bytes when both offsets are valid; otherwise return a comment's stored
text, or fall back to the generic printer (whose failure panics). -/
def nodeText (data : List Nat) (node : GNode) : Option (List Nat) :=
  if isEmptyNodeSlice node then some []
  else if validOffsets data (nodePos node) (nodeEnd node) then
    goSliceBytes data (nodePos node) (nodeEnd node)
  else
    match node with
    | .comment text _ _ => some text
    | node => printNode node

/-! ## Spec-side characterizations of the line expansion -/

/-- No newline byte at any index `i` with `lo ≤ i < hi`. -/
def noNewlineIn (data : List Nat) (lo hi : Nat) : Prop :=
  ∀ i, i < hi → lo ≤ i → isNewline (data.getD i 0) = false

instance (data : List Nat) (lo hi : Nat) : Decidable (noNewlineIn data lo hi) := by
  unfold noNewlineIn; infer_instance

/-- The start-expansion characterization in the spec's words: the expanded
start is the character immediately after the nearest preceding newline, or
byte 0 when there is no preceding newline. -/
def startSpecOrig (data : List Nat) (p st : Nat) : Prop :=
  (st = 0 ∧ noNewlineIn data 0 p) ∨
    (0 < st ∧ st ≤ p ∧ isNewline (data.getD (st - 1) 0) = true ∧ noNewlineIn data st p)

instance (data : List Nat) (p st : Nat) : Decidable (startSpecOrig data p st) := by
  unfold startSpecOrig; infer_instance

/-- The start-expansion characterization the source actually satisfies: the
nearest preceding newline is searched only at positive indices, so a newline
at byte 0 is passed over and the start becomes 0 (the newline then being part
of the expanded text). -/
def startSpecPos (data : List Nat) (p st : Nat) : Prop :=
  (st = 0 ∧ noNewlineIn data 1 p) ∨
    (2 ≤ st ∧ st ≤ p ∧ isNewline (data.getD (st - 1) 0) = true ∧ noNewlineIn data st p)

instance (data : List Nat) (p st : Nat) : Decidable (startSpecPos data p st) := by
  unfold startSpecPos; infer_instance

/-- The end-expansion characterization in the spec's words: the expanded end
is the index of the nearest following newline (so the text stops at the
character immediately before it), or the file's length when there is none. -/
def endSpec (data : List Nat) (e en : Nat) : Prop :=
  (en = data.length ∧ noNewlineIn data e data.length) ∨
    (e ≤ en ∧ en < data.length ∧ isNewline (data.getD en 0) = true ∧ noNewlineIn data e en)

instance (data : List Nat) (e en : Nat) : Decidable (endSpec data e en) := by
  unfold endSpec; infer_instance

/-! ## Lemmas about the per-hit callback -/

theorem visitHit_reject (f : Hit → Bool) (w : worker) (h : Hit)
    (hacc : acceptHit f w.filterExpr.Op h = false) : visitHit f w h = w := by
  simp [visitHit, hacc]

theorem visitHit_accept_count (f : Hit → Bool) (w : worker) (h : Hit)
    (hacc : acceptHit f w.filterExpr.Op h = true) (hcm : w.countMode = true) :
    visitHit f w h = { w with n := w.n + 1 } := by
  simp [visitHit, hacc]
  exact hcm

theorem visitHit_accept_full (f : Hit → Bool) (w : worker) (h : Hit)
    (hacc : acceptHit f w.filterExpr.Op h = true) (hcm : w.countMode = false) :
    visitHit f w h =
      { w with n := w.n + 1,
               matches' := w.matches' ++ [buildMatch { w with n := w.n + 1 } h] } := by
  simp [visitHit, hacc]
  exact hcm

theorem visitHit_n (f : Hit → Bool) (w : worker) (h : Hit) :
    (visitHit f w h).n = w.n + (if acceptHit f w.filterExpr.Op h = true then 1 else 0) := by
  cases hacc : acceptHit f w.filterExpr.Op h
  · simp [visitHit_reject f w h hacc]
  · cases hcm : w.countMode
    · simp [visitHit_accept_full f w h hacc hcm]
    · simp [visitHit_accept_count f w h hacc hcm]

theorem visitHit_filterExpr (f : Hit → Bool) (w : worker) (h : Hit) :
    (visitHit f w h).filterExpr = w.filterExpr := by
  cases hacc : acceptHit f w.filterExpr.Op h
  · simp [visitHit_reject f w h hacc]
  · cases hcm : w.countMode
    · simp [visitHit_accept_full f w h hacc hcm]
    · simp [visitHit_accept_count f w h hacc hcm]

theorem visitHit_countMode (f : Hit → Bool) (w : worker) (h : Hit) :
    (visitHit f w h).countMode = w.countMode := by
  cases hacc : acceptHit f w.filterExpr.Op h
  · simp [visitHit_reject f w h hacc]
  · cases hcm : w.countMode
    · simp [visitHit_accept_full f w h hacc hcm, hcm]
    · simp [visitHit_accept_count f w h hacc hcm, hcm]

theorem visitHit_data (f : Hit → Bool) (w : worker) (h : Hit) :
    (visitHit f w h).data = w.data := by
  cases hacc : acceptHit f w.filterExpr.Op h
  · simp [visitHit_reject f w h hacc]
  · cases hcm : w.countMode
    · simp [visitHit_accept_full f w h hacc hcm]
    · simp [visitHit_accept_count f w h hacc hcm]

theorem visitHit_matches_count (f : Hit → Bool) (w : worker) (h : Hit)
    (hcm : w.countMode = true) : (visitHit f w h).matches' = w.matches' := by
  cases hacc : acceptHit f w.filterExpr.Op h
  · simp [visitHit_reject f w h hacc]
  · simp [visitHit_accept_count f w h hacc hcm]

theorem visitHit_matches_full (f : Hit → Bool) (w : worker) (h : Hit)
    (hcm : w.countMode = false) :
    (visitHit f w h).matches'.length =
      w.matches'.length + (if acceptHit f w.filterExpr.Op h = true then 1 else 0) := by
  cases hacc : acceptHit f w.filterExpr.Op h
  · simp [visitHit_reject f w h hacc]
  · simp [visitHit_accept_full f w h hacc hcm]

/-! ## Lemmas about the walk -/

theorem walkVisit_cons (f : Hit → Bool) (w : worker) (h : Hit) (t : List Hit) :
    walkVisit f w (h :: t) = walkVisit f (visitHit f w h) t := rfl

theorem countAccepted_cons (f : Hit → Bool) (op : FilterOp) (h : Hit) (t : List Hit) :
    countAccepted f op (h :: t) =
      (if acceptHit f op h = true then 1 else 0) + countAccepted f op t := by
  simp [countAccepted, List.filter_cons]
  cases acceptHit f op h
  · simp
  · simp [Nat.add_comm]

theorem walkVisit_n (f : Hit → Bool) (hits : List Hit) :
    ∀ w : worker, (walkVisit f w hits).n = w.n + countAccepted f w.filterExpr.Op hits := by
  induction hits with
  | nil => intro w; simp [walkVisit, countAccepted]
  | cons h t ih =>
    intro w
    rw [walkVisit_cons, ih, countAccepted_cons, visitHit_n, visitHit_filterExpr]
    omega

theorem walkVisit_data (f : Hit → Bool) (hits : List Hit) :
    ∀ w : worker, (walkVisit f w hits).data = w.data := by
  induction hits with
  | nil => intro w; rfl
  | cons h t ih => intro w; rw [walkVisit_cons, ih, visitHit_data]

theorem walkVisit_matches_count (f : Hit → Bool) (hits : List Hit) :
    ∀ w : worker, w.countMode = true → (walkVisit f w hits).matches' = w.matches' := by
  induction hits with
  | nil => intro w _; rfl
  | cons h t ih =>
    intro w hcm
    rw [walkVisit_cons, ih _ (by rw [visitHit_countMode]; exact hcm),
      visitHit_matches_count f w h hcm]

theorem walkVisit_matches_full (f : Hit → Bool) (hits : List Hit) :
    ∀ w : worker, w.countMode = false →
      (walkVisit f w hits).matches'.length =
        w.matches'.length + countAccepted f w.filterExpr.Op hits := by
  induction hits with
  | nil => intro w _; simp [walkVisit, countAccepted]
  | cons h t ih =>
    intro w hcm
    rw [walkVisit_cons, ih _ (by rw [visitHit_countMode]; exact hcm),
      countAccepted_cons, visitHit_matches_full f w h hcm, visitHit_filterExpr]
    omega

theorem autogenSkip_fset (w : worker) (nf : Nat) (root : ParsedFile) :
    autogenSkip { w with fset := nf } root = autogenSkip w root := rfl

theorem parseFile_fset (w : worker) (nf : Nat)
    (parse : List Nat → Bool → Except String ParsedFile) (data : List Nat) :
    parseFile { w with fset := nf } parse data = parseFile w parse data := rfl

/-- Closed form of the match count returned by `grepFile`: 0 on every skip or
error path, and the number of accepted hits otherwise. The count does not
depend on `countMode`. -/
theorem grepFile_count (w : worker) (nf : Nat)
    (fs : String → Except String (List Nat))
    (parse : List Nat → Bool → Except String ParsedFile)
    (hitsOf : ParsedFile → List Hit) (f : Hit → Bool) (filename : String) :
    (grepFile w nf fs parse hitsOf f filename).2.1 =
      (if heatmapSkip w filename then 0
       else if testSkip w filename then 0
       else match fs filename with
            | .error _ => 0
            | .ok data =>
              match parse data (w.filterHints.autogenCond != Bool3.bool3unset) with
              | .error _ => 0
              | .ok root =>
                if autogenSkip w root then 0
                else countAccepted f w.filterExpr.Op (hitsOf root)) := by
  by_cases hh : heatmapSkip w filename
  · simp [grepFile, hh]
  · by_cases ht : testSkip w filename
    · simp [grepFile, hh, ht]
    · simp only [grepFile, grepFileProceed, hh, ht, if_false, Bool.false_eq_true,
        if_neg, ite_false]
      cases hfs : fs filename with
      | error e => simp
      | ok data =>
        simp only [grepFileLoaded, parseFile_fset, parseFile]
        cases hp : parse data (w.filterHints.autogenCond != Bool3.bool3unset) with
        | error e => simp
        | ok root =>
          simp only [autogenSkip_fset]
          by_cases ha : autogenSkip w root
          · simp [ha]
          · simp only [ha, if_false, Bool.false_eq_true, ite_false]
            rw [walkVisit_n]
            simp

/-- C1: count-only mode and full mode yield the same match count for the same
input; every accepted hit increments the per-file counter in both modes, while
count-only mode appends zero match records and full mode appends exactly one
record per accepted hit. -/
theorem grepFile_countMode_equivalence (w : worker) (nf : Nat)
    (fs : String → Except String (List Nat))
    (parse : List Nat → Bool → Except String ParsedFile)
    (hitsOf : ParsedFile → List Hit) (f : Hit → Bool) (filename : String)
    (hits : List Hit) :
    (grepFile { w with countMode := true } nf fs parse hitsOf f filename).2.1 =
      (grepFile { w with countMode := false } nf fs parse hitsOf f filename).2.1 ∧
    (walkVisit f { w with countMode := true } hits).n =
      (walkVisit f { w with countMode := false } hits).n ∧
    (walkVisit f { w with countMode := true } hits).n =
      w.n + countAccepted f w.filterExpr.Op hits ∧
    (walkVisit f { w with countMode := true } hits).matches' = w.matches' ∧
    (walkVisit f { w with countMode := false } hits).matches'.length =
      w.matches'.length + countAccepted f w.filterExpr.Op hits := by
  refine ⟨?_, ?_, ?_, ?_, ?_⟩
  · rw [grepFile_count, grepFile_count]; rfl
  · rw [walkVisit_n, walkVisit_n]
  · rw [walkVisit_n]
  · exact walkVisit_matches_count f hits { w with countMode := true } rfl
  · exact walkVisit_matches_full f hits { w with countMode := false } rfl

theorem acceptHit_nop (f : Hit → Bool) (h : Hit) :
    acceptHit f FilterOp.OpNop h = true := rfl

theorem countAccepted_nop (f : Hit → Bool) (hits : List Hit) :
    countAccepted f FilterOp.OpNop hits = hits.length := by
  unfold countAccepted
  rw [List.filter_eq_self.mpr (fun a _ => acceptHit_nop f a)]

theorem visitHit_nop_indep (f g : Hit → Bool) (w : worker) (h : Hit)
    (hop : w.filterExpr.Op = FilterOp.OpNop) : visitHit f w h = visitHit g w h := by
  unfold visitHit
  rw [hop, acceptHit_nop, acceptHit_nop]

theorem visitHit_filterOp (f : Hit → Bool) (w : worker) (h : Hit) :
    (visitHit f w h).filterExpr.Op = w.filterExpr.Op := by
  rw [visitHit_filterExpr]

theorem walkVisit_nop_indep (f g : Hit → Bool) (hits : List Hit) :
    ∀ w : worker, w.filterExpr.Op = FilterOp.OpNop →
      walkVisit f w hits = walkVisit g w hits := by
  induction hits with
  | nil => intro w _; rfl
  | cons h t ih =>
    intro w hop
    rw [walkVisit_cons, walkVisit_cons, visitHit_nop_indep f g w h hop,
      ih _ (by rw [visitHit_filterOp]; exact hop)]

/-- C6: when the filter expression is the distinguished no-op, every matcher
hit is accepted and the filter evaluator is never consulted (the walk result
does not depend on it); replacing any filter expression with the no-op never
decreases the accepted match count. -/
theorem filter_noop_short_circuit (f g : Hit → Bool) (w : worker) (hits : List Hit) :
    walkVisit f { w with filterExpr := { Op := FilterOp.OpNop } } hits =
      walkVisit g { w with filterExpr := { Op := FilterOp.OpNop } } hits ∧
    (walkVisit f { w with filterExpr := { Op := FilterOp.OpNop } } hits).n =
      w.n + hits.length ∧
    (walkVisit f w hits).n ≤
      (walkVisit f { w with filterExpr := { Op := FilterOp.OpNop } } hits).n := by
  refine ⟨walkVisit_nop_indep f g hits _ rfl, ?_, ?_⟩
  · rw [walkVisit_n]
    show w.n + countAccepted f FilterOp.OpNop hits = w.n + hits.length
    rw [countAccepted_nop]
  · rw [walkVisit_n, walkVisit_n]
    show w.n + countAccepted f w.filterExpr.Op hits ≤
      w.n + countAccepted f FilterOp.OpNop hits
    rw [countAccepted_nop]
    exact Nat.add_le_add_left (List.length_filter_le _ _) w.n

theorem autogenLoop_step (c : String) (t : List String) (g d : Bool) :
    autogenLoop (c :: t) g d =
      (if ((g || hasGenPhrase c) && (d || hasDoNotEditPhrase c)) then true
       else autogenLoop t (g || hasGenPhrase c) (d || hasDoNotEditPhrase c)) := by
  cases g <;> cases d <;> simp [autogenLoop]

theorem autogenLoop_char (l : List String) :
    ∀ g d : Bool, (g && d) = false →
      autogenLoop l g d =
        ((g || l.any hasGenPhrase) && (d || l.any hasDoNotEditPhrase)) := by
  induction l with
  | nil => intro g d hgd; simp [autogenLoop, hgd]
  | cons c t ih =>
    intro g d hgd
    rw [autogenLoop_step]
    cases hb : ((g || hasGenPhrase c) && (d || hasDoNotEditPhrase c)) with
    | false =>
      simp only [Bool.false_eq_true, if_false]
      rw [ih _ _ hb]
      simp [List.any_cons, Bool.or_assoc]
    | true =>
      simp only [if_true]
      rw [Bool.and_eq_true] at hb
      rcases hb with ⟨h1, h2⟩
      simp only [List.any_cons]
      rw [← Bool.or_assoc, ← Bool.or_assoc, h1, h2]
      rfl

theorem isAutogenComment_iff_parts (comment : List String) :
    isAutogenComment comment =
      (comment.any hasGenPhrase && comment.any hasDoNotEditPhrase) := by
  unfold isAutogenComment
  rw [autogenLoop_char comment false false rfl]
  simp

/-- C4: a file is flagged as autogenerated iff some single comment group
contains both a code-generation phrase and a do-not-edit phrase (each matched
on the lowercased line text), on any lines of the group in any order; phrases
split across different groups never flag the file. -/
theorem isAutogenFile_iff (groups : List (List String)) :
    isAutogenFile groups = true ↔
      ∃ g ∈ groups,
        (∃ c ∈ g, hasGenPhrase c = true) ∧ (∃ c ∈ g, hasDoNotEditPhrase c = true) := by
  induction groups with
  | nil => simp [isAutogenFile]
  | cons g t ih =>
    simp only [isAutogenFile, isAutogenComment_iff_parts, List.mem_cons]
    by_cases hg : (List.any g hasGenPhrase && List.any g hasDoNotEditPhrase) = true
    · rw [if_pos hg]
      rw [Bool.and_eq_true] at hg
      rcases hg with ⟨h1, h2⟩
      rw [List.any_eq_true] at h1 h2
      constructor
      · intro _; exact ⟨g, Or.inl rfl, h1, h2⟩
      · intro _; rfl
    · rw [if_neg hg]
      rw [ih]
      constructor
      · rintro ⟨x, hx, hparts⟩
        exact ⟨x, Or.inr hx, hparts⟩
      · rintro ⟨x, hx, hparts⟩
        rcases hx with rfl | hx
        · refine absurd ?_ hg
          rw [Bool.and_eq_true]
          exact ⟨List.any_eq_true.mpr hparts.1, List.any_eq_true.mpr hparts.2⟩
        · exact ⟨x, hx, hparts⟩

theorem buildMatch_startOffset (w : worker) (h : Hit) :
    (buildMatch w h).startOffset = h.startOffset := by
  unfold buildMatch initMatchText initMatchCapture
  cases w.needCapture <;> cases w.needMatchLine <;> simp

theorem buildMatch_endOffset (w : worker) (h : Hit) :
    (buildMatch w h).endOffset = h.endOffset := by
  unfold buildMatch initMatchText initMatchCapture
  cases w.needCapture <;> cases w.needMatchLine <;> simp

/-- C2: with line-expansion disabled, every match record appended by the
visit callback stores as text exactly the raw bytes between its recorded
start and end offsets, with matched-subrange offset 0 and length equal to
the text's length. -/
theorem match_text_no_expansion (f : Hit → Bool) (w : worker) (h : Hit)
    (hml : w.needMatchLine = false) (hcm : w.countMode = false)
    (hacc : acceptHit f w.filterExpr.Op h = true) :
    ∃ m : Match,
      (visitHit f w h).matches' = w.matches' ++ [m] ∧
      m.startOffset = h.startOffset ∧
      m.endOffset = h.endOffset ∧
      m.text = sliceBytes w.data m.startOffset m.endOffset ∧
      m.matchStartOffset = 0 ∧
      m.matchLength = m.text.length := by
  refine ⟨buildMatch { w with n := w.n + 1 } h, ?_, ?_, ?_, ?_, ?_, ?_⟩
  · rw [visitHit_accept_full f w h hacc hcm]
  · exact buildMatch_startOffset _ h
  · exact buildMatch_endOffset _ h
  · rw [buildMatch_startOffset _ h, buildMatch_endOffset _ h]
    unfold buildMatch initMatchText initMatchCapture
    cases hc : w.needCapture <;> simp [hml]
  · unfold buildMatch initMatchText initMatchCapture
    cases hc : w.needCapture <;> simp [hml]
  · unfold buildMatch initMatchText initMatchCapture
    cases hc : w.needCapture <;> simp [hml]

/-- Offsets of a stored captured node are ordered and within the file. -/
def capturedInBounds (len : Nat) (c : capturedNode) : Bool :=
  decide (c.startOffset ≤ c.endOffset) && decide (c.endOffset ≤ len)

/-- Offsets of a match record (and of all its captured nodes) are ordered and
within the file of length `len`. -/
def matchInBounds (len : Nat) (m : Match) : Bool :=
  decide (m.startOffset ≤ m.endOffset) && decide (m.endOffset ≤ len) &&
    m.capture.all (capturedInBounds len)

/-- The position-table outputs carried by a hit are ordered and within the
file of length `len` (the go/token position-table contract). -/
def hitInBounds (len : Nat) (h : Hit) : Bool :=
  decide (h.startOffset ≤ h.endOffset) && decide (h.endOffset ≤ len) &&
    h.capture.all (fun c =>
      decide (c.startOffset ≤ c.endOffset) && decide (c.endOffset ≤ len))

theorem buildMatch_inBounds (w : worker) (h : Hit)
    (hh : hitInBounds w.data.length h = true) :
    matchInBounds w.data.length (buildMatch w h) = true := by
  unfold hitInBounds at hh
  simp only [Bool.and_eq_true, List.all_eq_true, decide_eq_true_eq] at hh
  unfold buildMatch initMatchText initMatchCapture matchInBounds capturedInBounds
  cases w.needCapture <;> cases w.needMatchLine <;>
    simp [Bool.and_eq_true, List.all_eq_true, decide_eq_true_eq, List.all_map,
      Function.comp]
  all_goals first
    | exact ⟨hh.1.1, hh.1.2⟩
    | exact ⟨⟨hh.1.1, hh.1.2⟩, fun c hc => ⟨(hh.2 c hc).1, (hh.2 c hc).2⟩⟩

/-- C8: provided the position-table offsets delivered with the hits are valid
for the current file (0 ≤ start ≤ end ≤ length, also for captures), every
match record in the worker's list after the walk — in particular every newly
appended one — has start/end offsets and captured-node offsets that are valid
indices into the scanned file's bytes. -/
theorem walkVisit_offsets_inBounds (f : Hit → Bool) (hits : List Hit) :
    ∀ w : worker,
      w.matches'.all (matchInBounds w.data.length) = true →
      hits.all (hitInBounds w.data.length) = true →
      (walkVisit f w hits).matches'.all
        (matchInBounds (walkVisit f w hits).data.length) = true := by
  induction hits with
  | nil => intro w hw _; exact hw
  | cons h t ih =>
    intro w hw hh
    rw [List.all_cons, Bool.and_eq_true] at hh
    rw [walkVisit_cons]
    apply ih
    · rw [visitHit_data]
      cases hacc : acceptHit f w.filterExpr.Op h
      · rw [visitHit_reject f w h hacc]; exact hw
      · cases hcm : w.countMode
        · rw [visitHit_accept_full f w h hacc hcm]
          show (w.matches' ++ [buildMatch { w with n := w.n + 1 } h]).all
            (matchInBounds w.data.length) = true
          rw [List.all_append, Bool.and_eq_true]
          refine ⟨hw, ?_⟩
          rw [List.all_cons, List.all_nil, Bool.and_true]
          exact buildMatch_inBounds { w with n := w.n + 1 } h hh.1
        · rw [visitHit_accept_count f w h hacc hcm]; exact hw
    · rw [visitHit_data]; exact hh.2

/-! ## Characterization of the two expansion scans -/

theorem noNewlineIn_empty (data : List Nat) (lo hi : Nat) (h : hi ≤ lo) :
    noNewlineIn data lo hi :=
  fun _i hih hloi => absurd (lt_of_lt_of_le hih h) (not_lt.mpr hloi)

theorem noNewlineIn_extend_hi (data : List Nat) (lo hi : Nat)
    (h : noNewlineIn data lo hi) (hn : isNewline (data.getD hi 0) = false) :
    noNewlineIn data lo (hi + 1) := by
  intro i hi1 hlo
  rcases Nat.lt_succ_iff_lt_or_eq.mp hi1 with h' | rfl
  · exact h i h' hlo
  · exact hn

theorem noNewlineIn_extend_lo (data : List Nat) (lo hi : Nat)
    (h : noNewlineIn data (lo + 1) hi) (hn : isNewline (data.getD lo 0) = false) :
    noNewlineIn data lo hi := by
  intro i hih hloi
  rcases Nat.eq_or_lt_of_le hloi with rfl | h'
  · exact hn
  · exact h i hih h'

theorem noNewlineIn_mono_hi (data : List Nat) (lo hi hi2 : Nat)
    (h : noNewlineIn data lo hi) (hle : hi2 ≤ hi) : noNewlineIn data lo hi2 :=
  fun i hi1 hlo => h i (lt_of_lt_of_le hi1 hle) hlo

/-- The backward scan started at `c ≤ p` (with no newline at `p` itself)
either reaches 0 having seen no newline at positive indices up to `c`, or
stops just after the greatest positive newline index `s ≤ c`. -/
theorem expandStartLoop_char (data : List Nat) (p : Nat)
    (hp : isNewline (data.getD p 0) = false) :
    ∀ c, c ≤ p →
      (expandStartLoop data p c = 0 ∧ noNewlineIn data 1 (c + 1)) ∨
      (∃ s, 1 ≤ s ∧ s ≤ c ∧ s < p ∧ isNewline (data.getD s 0) = true ∧
        expandStartLoop data p c = s + 1 ∧ noNewlineIn data (s + 1) (c + 1)) := by
  intro c
  induction c with
  | zero =>
    intro _
    exact Or.inl ⟨rfl, noNewlineIn_empty data 1 1 le_rfl⟩
  | succ c ih =>
    intro hcp
    rw [show expandStartLoop data p (c + 1) =
      (if isNewline (data.getD (c + 1) 0) then
        (if c + 1 = p then c + 1 else c + 2)
       else expandStartLoop data p c) from rfl]
    cases hn : isNewline (data.getD (c + 1) 0) with
    | true =>
      have hne : c + 1 ≠ p := by
        intro he
        rw [he] at hn
        rw [hn] at hp
        simp at hp
      right
      refine ⟨c + 1, Nat.succ_le_succ (Nat.zero_le c), le_rfl,
        lt_of_le_of_ne hcp hne, hn, ?_, noNewlineIn_empty data (c + 2) (c + 2) le_rfl⟩
      simp [hne]
    | false =>
      simp only [Bool.false_eq_true, if_false]
      rcases ih (le_of_lt (Nat.lt_of_succ_le hcp)) with ⟨hr, hno⟩ | ⟨s, h1, h2, h3, h4, h5, h6⟩
      · exact Or.inl ⟨hr, noNewlineIn_extend_hi data 1 (c + 1) hno hn⟩
      · exact Or.inr ⟨s, h1, le_trans h2 (Nat.le_succ c), h3, h4, h5,
          noNewlineIn_extend_hi data (s + 1) (c + 1) h6 hn⟩

/-- The start expansion satisfies the positive-index characterization when
the match's first byte is not a newline. -/
theorem expandStart_spec (data : List Nat) (p : Nat)
    (hnl : isNewline (data.getD p 0) = false) :
    startSpecPos data p (expandStart data p) := by
  rcases expandStartLoop_char data p hnl p le_rfl with ⟨hr, hno⟩ | ⟨s, h1, h2, h3, h4, h5, h6⟩
  · left
    exact ⟨hr, noNewlineIn_mono_hi data 1 (p + 1) p hno (Nat.le_succ p)⟩
  · right
    rw [show expandStart data p = expandStartLoop data p p from rfl, h5]
    refine ⟨Nat.succ_le_succ h1, Nat.succ_le_of_lt h3, ?_, ?_⟩
    · rw [Nat.add_sub_cancel]
      exact h4
    · exact noNewlineIn_mono_hi data (s + 1) (p + 1) p h6 (Nat.le_succ p)

/-- The forward scan with enough fuel either reaches the end of the buffer
having seen no newline, or stops at the first newline index at or after `e`. -/
theorem expandEndLoop_char (data : List Nat) :
    ∀ fuel e, e ≤ data.length → data.length ≤ e + fuel →
      (expandEndLoop data fuel e = data.length ∧ noNewlineIn data e data.length) ∨
      (∃ j, e ≤ j ∧ j < data.length ∧ isNewline (data.getD j 0) = true ∧
        expandEndLoop data fuel e = j ∧ noNewlineIn data e j) := by
  intro fuel
  induction fuel with
  | zero =>
    intro e he hle
    have heq : e = data.length := le_antisymm he (by simpa using hle)
    left
    constructor
    · rw [show expandEndLoop data 0 e = e from rfl, heq]
    · rw [heq]
      exact noNewlineIn_empty data data.length data.length le_rfl
  | succ fuel ih =>
    intro e he hle
    rw [show expandEndLoop data (fuel + 1) e =
      (if e < data.length then
        (if isNewline (data.getD e 0) then e else expandEndLoop data fuel (e + 1))
       else e) from rfl]
    by_cases helt : e < data.length
    · rw [if_pos helt]
      cases hn : isNewline (data.getD e 0) with
      | true =>
        right
        exact ⟨e, le_rfl, helt, hn, by simp, noNewlineIn_empty data e e le_rfl⟩
      | false =>
        simp only [Bool.false_eq_true, if_false]
        rcases ih (e + 1) helt (by omega) with ⟨h1, h2⟩ | ⟨j, h1, h2, h3, h4, h5⟩
        · exact Or.inl ⟨h1, noNewlineIn_extend_lo data e data.length h2 hn⟩
        · exact Or.inr ⟨j, by omega, h2, h3, h4,
            noNewlineIn_extend_lo data e j h5 hn⟩
    · rw [if_neg helt]
      have heq : e = data.length := le_antisymm he (not_lt.mp helt)
      left
      constructor
      · exact heq
      · rw [heq]
        exact noNewlineIn_empty data data.length data.length le_rfl

/-- The end expansion satisfies the spec's characterization. -/
theorem expandEnd_spec (data : List Nat) (e : Nat) (he : e ≤ data.length) :
    endSpec data e (expandEnd data e) := by
  rcases expandEndLoop_char data (data.length - e) e he (by omega)
    with ⟨h1, h2⟩ | ⟨j, h1, h2, h3, h4, h5⟩
  · exact Or.inl ⟨h1, h2⟩
  · right
    rw [show expandEnd data e = expandEndLoop data (data.length - e) e from rfl, h4]
    exact ⟨h1, h2, h3, h5⟩

theorem sliceBytes_of_sliceBytes (data : List Nat) (st en s e : Nat)
    (h1 : st ≤ s) (h3 : e ≤ en) :
    sliceBytes (sliceBytes data st en) (s - st) ((s - st) + (e - s)) =
      sliceBytes data s e := by
  unfold sliceBytes
  rw [Nat.add_sub_cancel_left, List.drop_take, List.drop_drop,
    Nat.add_sub_cancel' h1, Nat.sub_sub_sub_cancel_right h1, List.take_take,
    Nat.min_eq_left (Nat.sub_le_sub_right h3 s)]

/-- C3 (amended): with line-expansion enabled and the match's first byte not
itself a newline, the start offset is extended backward to the character
immediately after the nearest preceding newline found at a positive byte
index (a newline at byte 0 does not stop the scan, so the start becomes 0 and
that newline is part of the text), the end offset is extended forward to the
nearest following newline (exclusive) or the file's length, the matched
sub-range offset is the original start minus the expanded start, its length
is the original end minus the original start, and the sub-range of the
expanded text equals the original match bytes verbatim (newlines included). -/
theorem line_expansion_characterization (data : List Nat) (s e : Nat) (m : Match)
    (_hs : s < data.length) (_hse : s ≤ e) (he : e ≤ data.length)
    (hnl : isNewline (data.getD s 0) = false) :
    startSpecPos data s (expandStart data s) ∧
    endSpec data e (expandEnd data e) ∧
    (initMatchText true data m s e).text =
      sliceBytes data (expandStart data s) (expandEnd data e) ∧
    (initMatchText true data m s e).matchStartOffset = s - expandStart data s ∧
    (initMatchText true data m s e).matchLength = e - s ∧
    sliceBytes (initMatchText true data m s e).text
      (initMatchText true data m s e).matchStartOffset
      ((initMatchText true data m s e).matchStartOffset +
        (initMatchText true data m s e).matchLength) = sliceBytes data s e := by
  have hstart := expandStart_spec data s hnl
  have hend := expandEnd_spec data e he
  have hst_le : expandStart data s ≤ s := by
    rcases hstart with ⟨h0, _⟩ | ⟨_, hle, _⟩
    · rw [h0]
      exact Nat.zero_le s
    · exact hle
  have he_le : e ≤ expandEnd data e := by
    rcases hend with ⟨h0, _⟩ | ⟨hle, _⟩
    · rw [h0]
      exact he
    · exact hle
  have htext : (initMatchText true data m s e).text =
      sliceBytes data (expandStart data s) (expandEnd data e) := by
    unfold initMatchText
    simp
  have hoff : (initMatchText true data m s e).matchStartOffset =
      s - expandStart data s := by
    unfold initMatchText
    simp
  have hlen : (initMatchText true data m s e).matchLength = e - s := by
    unfold initMatchText
    simp
  refine ⟨hstart, hend, htext, hoff, hlen, ?_⟩
  rw [htext, hoff, hlen]
  exact sliceBytes_of_sliceBytes data (expandStart data s) (expandEnd data e) s e
    hst_le he_le

/-- C3 counterexample: for the file bytes "\nab" and a match covering "ab"
(offsets 1..3), the nearest preceding newline is at byte 0, so the claimed
characterization demands an expanded start of 1 (text "ab", sub-range offset
0); the code instead expands the start to 0, records "\nab" and sub-range
offset 1. -/
theorem line_expansion_start_counterexample :
    expandStart [10, 97, 98] 1 = 0 ∧
    ¬ startSpecOrig [10, 97, 98] 1 (expandStart [10, 97, 98] 1) ∧
    (initMatchText true [10, 97, 98]
      { filename := "", line := 1, startOffset := 1, endOffset := 3, capture := [],
        text := [], matchStartOffset := 0, matchLength := 0 } 1 3).text = [10, 97, 98] ∧
    (initMatchText true [10, 97, 98]
      { filename := "", line := 1, startOffset := 1, endOffset := 3, capture := [],
        text := [], matchStartOffset := 0, matchLength := 0 } 1 3).matchStartOffset = 1 := by
  decide

/-- C5: a configured heatmap filename set lacking the file's base name, or a
set test-file condition disagreeing with the filename's test-suffix status,
makes `grepFile` return a count of 0 with no error and the worker untouched,
for every file system / parser / matcher (so no byte of the file is read); a
nil heatmap set together with an unset test condition always proceeds to the
read, whatever the filename. -/
theorem prefilter_skip_behavior (w : worker) (nf : Nat)
    (fs : String → Except String (List Nat))
    (parse : List Nat → Bool → Except String ParsedFile)
    (hitsOf : ParsedFile → List Hit) (f : Hit → Bool) (filename : String) :
    (∀ set, w.heatmapFilenameSet = some set →
      set.contains (baseName filename) = false →
      grepFile w nf fs parse hitsOf f filename = (w, 0, none)) ∧
    (w.filterHints.testCond ≠ Bool3.bool3unset →
      w.filterHints.testCond.Eq (isTestFile filename) = false →
      grepFile w nf fs parse hitsOf f filename = (w, 0, none)) ∧
    (w.heatmapFilenameSet = none → w.filterHints.testCond = Bool3.bool3unset →
      grepFile w nf fs parse hitsOf f filename =
        grepFileProceed w nf fs parse hitsOf f filename) := by
  refine ⟨?_, ?_, ?_⟩
  · intro set hset hmem
    have hh : heatmapSkip w filename = true := by
      have hm : heatmapSkip w filename = !set.contains (baseName filename) := by
        unfold heatmapSkip
        rw [hset]
      rw [hm, hmem]
      rfl
    simp [grepFile, hh]
  · intro ht hmem
    by_cases hh : heatmapSkip w filename = true
    · simp [grepFile, hh]
    · have ht2 : testSkip w filename = true := by
        unfold testSkip
        rw [hmem]
        cases hc : w.filterHints.testCond with
        | bool3unset => exact absurd hc ht
        | bool3true => rfl
        | bool3false => rfl
      simp [grepFile, hh, ht2]
  · intro hnone hunset
    have hh : heatmapSkip w filename = false := by
      unfold heatmapSkip
      rw [hnone]
    have ht : testSkip w filename = false := by
      unfold testSkip
      rw [hunset]
      rfl
    simp [grepFile, hh, ht]

/-- C7: when the prefilter passes, the read succeeds, and the parser fails,
`grepFile` returns immediately with a count of 0 and the parser's own
diagnostic; the match and error lists are untouched (only the file set token
is replaced). -/
theorem parse_error_zero_matches (w : worker) (nf : Nat)
    (fs : String → Except String (List Nat))
    (parse : List Nat → Bool → Except String ParsedFile)
    (hitsOf : ParsedFile → List Hit) (f : Hit → Bool) (filename : String)
    (data : List Nat) (e : String)
    (hh : heatmapSkip w filename = false) (ht : testSkip w filename = false)
    (hfs : fs filename = Except.ok data)
    (hp : parse data (w.filterHints.autogenCond != Bool3.bool3unset) = Except.error e) :
    grepFile w nf fs parse hitsOf f filename = ({ w with fset := nf }, 0, some e) ∧
    ({ w with fset := nf } : worker).matches' = w.matches' ∧
    ({ w with fset := nf } : worker).errors = w.errors ∧
    ({ w with fset := nf } : worker).n = w.n := by
  refine ⟨?_, rfl, rfl, rfl⟩
  simp [grepFile, hh, ht, grepFileProceed, hfs, grepFileLoaded, parseFile, hp]

/-- C10: on each early-return path of `grepFile` (heatmap skip, test-condition
mismatch, read error, parse error, autogeneration mismatch) the returned
worker is exactly the input worker, except that on the two post-read paths
the file set token has been replaced; matches, errors, data, filename and
pkgName are retained on all five paths. -/
theorem grepFile_early_return_frame (w : worker) (nf : Nat)
    (fs : String → Except String (List Nat))
    (parse : List Nat → Bool → Except String ParsedFile)
    (hitsOf : ParsedFile → List Hit) (f : Hit → Bool) (filename : String) :
    (heatmapSkip w filename = true →
      grepFile w nf fs parse hitsOf f filename = (w, 0, none)) ∧
    (heatmapSkip w filename = false → testSkip w filename = true →
      grepFile w nf fs parse hitsOf f filename = (w, 0, none)) ∧
    (∀ e, heatmapSkip w filename = false → testSkip w filename = false →
      fs filename = Except.error e →
      grepFile w nf fs parse hitsOf f filename = (w, 0, some ("read file: " ++ e))) ∧
    (∀ data e, heatmapSkip w filename = false → testSkip w filename = false →
      fs filename = Except.ok data →
      parse data (w.filterHints.autogenCond != Bool3.bool3unset) = Except.error e →
      grepFile w nf fs parse hitsOf f filename = ({ w with fset := nf }, 0, some e)) ∧
    (∀ data root, heatmapSkip w filename = false → testSkip w filename = false →
      fs filename = Except.ok data →
      parse data (w.filterHints.autogenCond != Bool3.bool3unset) = Except.ok root →
      autogenSkip w root = true →
      grepFile w nf fs parse hitsOf f filename = ({ w with fset := nf }, 0, none)) := by
  refine ⟨?_, ?_, ?_, ?_, ?_⟩
  · intro hh
    simp [grepFile, hh]
  · intro hh ht
    simp [grepFile, hh, ht]
  · intro e hh ht hfs
    simp [grepFile, hh, ht, grepFileProceed, hfs]
  · intro data e hh ht hfs hp
    simp [grepFile, hh, ht, grepFileProceed, hfs, grepFileLoaded, parseFile, hp]
  · intro data root hh ht hfs hp ha
    simp [grepFile, hh, ht, grepFileProceed, hfs, grepFileLoaded, parseFile, hp,
      autogenSkip_fset, ha]

/-- C9: `nodeText` returns the empty byte string for the empty node-sequence
placeholder; slices the raw bytes exactly when both position-table offsets
lie in `[0, len)` (given the AST ordering `pos ≤ end`); returns a comment's
stored text when its offsets are invalid; and for any other node with invalid
offsets returns the generic printer's output, whose failure is a panic
(`none`) rather than wrong text. -/
theorem nodeText_paths (data : List Nat) :
    (nodeText data GNode.emptySlice = some []) ∧
    (∀ text pos endp, validOffsets data pos endp → pos ≤ endp →
      nodeText data (GNode.comment text pos endp) =
        some (sliceBytes data pos.toNat endp.toNat)) ∧
    (∀ pos endp printed, validOffsets data pos endp → pos ≤ endp →
      nodeText data (GNode.other pos endp printed) =
        some (sliceBytes data pos.toNat endp.toNat)) ∧
    (∀ text pos endp, ¬ validOffsets data pos endp →
      nodeText data (GNode.comment text pos endp) = some text) ∧
    (∀ pos endp printed, ¬ validOffsets data pos endp →
      nodeText data (GNode.other pos endp printed) = printed) := by
  refine ⟨rfl, ?_, ?_, ?_, ?_⟩
  · intro text pos endp hv hle
    simp [nodeText, isEmptyNodeSlice, nodePos, nodeEnd, hv, goSliceBytes, hle]
  · intro pos endp printed hv hle
    simp [nodeText, isEmptyNodeSlice, nodePos, nodeEnd, hv, goSliceBytes, hle]
  · intro text pos endp hv
    simp [nodeText, isEmptyNodeSlice, nodePos, nodeEnd, hv]
  · intro pos endp printed hv
    simp [nodeText, isEmptyNodeSlice, nodePos, nodeEnd, hv, printNode]

/-! ## Concrete instances for the hypothesis-bearing theorems -/

/-- A concrete worker with all modes off and no prefilter conditions. -/
def sampleWorker : worker :=
  { id := 0, countMode := false, needCapture := false, needMatchLine := false,
    workDir := "", heatmapFilenameSet := none,
    filterHints := { testCond := Bool3.bool3unset, autogenCond := Bool3.bool3unset },
    filterExpr := { Op := FilterOp.OpNop }, fset := 0, matches' := [], errors := [],
    data := [], filename := "", pkgName := "", typeName := "", funcName := "",
    closureID := 0, n := 0 }

/-- A concrete zero-valued match record. -/
def emptyMatch : Match :=
  { filename := "", line := 0, startOffset := 0, endOffset := 0, capture := [],
    text := [], matchStartOffset := 0, matchLength := 0 }

/-- A concrete file system whose every file is the byte 97. -/
def fsSample : String → Except String (List Nat) := fun _ => Except.ok [97]

/-- A concrete parser accepting everything with no comments. -/
def parseSample : List Nat → Bool → Except String ParsedFile :=
  fun _ _ => Except.ok { pkgName := "main", comments := [] }

/-- A concrete matcher producing no hits. -/
def hitsSample : ParsedFile → List Hit := fun _ => []

/-- A concrete filter evaluator accepting everything. -/
def filterTrue : Hit → Bool := fun _ => true

theorem match_text_no_expansion_witness :
    ∃ m : Match,
      (visitHit filterTrue { sampleWorker with data := [97, 98, 99] }
        { line := 1, startOffset := 1, endOffset := 2, capture := [] }).matches' =
        ({ sampleWorker with data := [97, 98, 99] } : worker).matches' ++ [m] ∧
      m.startOffset = Hit.startOffset { line := 1, startOffset := 1, endOffset := 2, capture := [] } ∧
      m.endOffset = Hit.endOffset { line := 1, startOffset := 1, endOffset := 2, capture := [] } ∧
      m.text = sliceBytes ({ sampleWorker with data := [97, 98, 99] } : worker).data
        m.startOffset m.endOffset ∧
      m.matchStartOffset = 0 ∧
      m.matchLength = m.text.length :=
  match_text_no_expansion filterTrue { sampleWorker with data := [97, 98, 99] }
    { line := 1, startOffset := 1, endOffset := 2, capture := [] } rfl rfl rfl

theorem line_expansion_characterization_witness :
    startSpecPos [97, 10, 98, 99] 2 (expandStart [97, 10, 98, 99] 2) ∧
    endSpec [97, 10, 98, 99] 3 (expandEnd [97, 10, 98, 99] 3) ∧
    (initMatchText true [97, 10, 98, 99] emptyMatch 2 3).text =
      sliceBytes [97, 10, 98, 99] (expandStart [97, 10, 98, 99] 2)
        (expandEnd [97, 10, 98, 99] 3) ∧
    (initMatchText true [97, 10, 98, 99] emptyMatch 2 3).matchStartOffset =
      2 - expandStart [97, 10, 98, 99] 2 ∧
    (initMatchText true [97, 10, 98, 99] emptyMatch 2 3).matchLength = 3 - 2 ∧
    sliceBytes (initMatchText true [97, 10, 98, 99] emptyMatch 2 3).text
      (initMatchText true [97, 10, 98, 99] emptyMatch 2 3).matchStartOffset
      ((initMatchText true [97, 10, 98, 99] emptyMatch 2 3).matchStartOffset +
        (initMatchText true [97, 10, 98, 99] emptyMatch 2 3).matchLength) =
      sliceBytes [97, 10, 98, 99] 2 3 :=
  line_expansion_characterization [97, 10, 98, 99] 2 3 emptyMatch
    (by decide) (by decide) (by decide) (by decide)

theorem prefilter_skip_behavior_witness :
    grepFile { sampleWorker with heatmapFilenameSet := some ["other.go"] } 1
      fsSample parseSample hitsSample filterTrue "a.go" =
      ({ sampleWorker with heatmapFilenameSet := some ["other.go"] }, 0, none) ∧
    grepFile { sampleWorker with
        filterHints := { testCond := Bool3.bool3true, autogenCond := Bool3.bool3unset } } 1
      fsSample parseSample hitsSample filterTrue "a.go" =
      ({ sampleWorker with
        filterHints := { testCond := Bool3.bool3true, autogenCond := Bool3.bool3unset } },
        0, none) ∧
    grepFile sampleWorker 1 fsSample parseSample hitsSample filterTrue "a.go" =
      grepFileProceed sampleWorker 1 fsSample parseSample hitsSample filterTrue "a.go" :=
  ⟨(prefilter_skip_behavior { sampleWorker with heatmapFilenameSet := some ["other.go"] }
      1 fsSample parseSample hitsSample filterTrue "a.go").1 ["other.go"] rfl (by decide),
   (prefilter_skip_behavior { sampleWorker with
        filterHints := { testCond := Bool3.bool3true, autogenCond := Bool3.bool3unset } }
      1 fsSample parseSample hitsSample filterTrue "a.go").2.1 (by decide) (by decide),
   (prefilter_skip_behavior sampleWorker
      1 fsSample parseSample hitsSample filterTrue "a.go").2.2 rfl rfl⟩

theorem parse_error_zero_matches_witness :
    grepFile sampleWorker 1 fsSample (fun _ _ => Except.error "syntax")
      hitsSample filterTrue "a.go" = ({ sampleWorker with fset := 1 }, 0, some "syntax") ∧
    ({ sampleWorker with fset := 1 } : worker).matches' = sampleWorker.matches' ∧
    ({ sampleWorker with fset := 1 } : worker).errors = sampleWorker.errors ∧
    ({ sampleWorker with fset := 1 } : worker).n = sampleWorker.n :=
  parse_error_zero_matches sampleWorker 1 fsSample (fun _ _ => Except.error "syntax")
    hitsSample filterTrue "a.go" [97] "syntax" rfl rfl rfl rfl

theorem walkVisit_offsets_inBounds_witness :
    (walkVisit filterTrue { sampleWorker with data := [97, 98] }
      [{ line := 1, startOffset := 0, endOffset := 2,
         capture := [{ startOffset := 0, endOffset := 1 }] }]).matches'.all
      (matchInBounds
        (walkVisit filterTrue { sampleWorker with data := [97, 98] }
          [{ line := 1, startOffset := 0, endOffset := 2,
             capture := [{ startOffset := 0, endOffset := 1 }] }]).data.length) = true :=
  walkVisit_offsets_inBounds filterTrue
    [{ line := 1, startOffset := 0, endOffset := 2,
       capture := [{ startOffset := 0, endOffset := 1 }] }]
    { sampleWorker with data := [97, 98] } (by decide) (by decide)

theorem nodeText_paths_witness :
    nodeText [97, 98] GNode.emptySlice = some [] ∧
    nodeText [97, 98] (GNode.comment [99] 0 1) =
      some (sliceBytes [97, 98] (Int.toNat 0) (Int.toNat 1)) ∧
    nodeText [97, 98] (GNode.other 0 1 (some [100])) =
      some (sliceBytes [97, 98] (Int.toNat 0) (Int.toNat 1)) ∧
    nodeText [97, 98] (GNode.comment [99] (-1) 1) = some [99] ∧
    nodeText [97, 98] (GNode.other (-1) 1 none) = none :=
  ⟨(nodeText_paths [97, 98]).1,
   (nodeText_paths [97, 98]).2.1 [99] 0 1 (by decide) (by decide),
   (nodeText_paths [97, 98]).2.2.1 0 1 (some [100]) (by decide) (by decide),
   (nodeText_paths [97, 98]).2.2.2.1 [99] (-1) 1 (by decide),
   (nodeText_paths [97, 98]).2.2.2.2 (-1) 1 none (by decide)⟩

theorem grepFile_early_return_frame_witness :
    grepFile { sampleWorker with heatmapFilenameSet := some [] } 1
      fsSample parseSample hitsSample filterTrue "a.go" =
      ({ sampleWorker with heatmapFilenameSet := some [] }, 0, none) ∧
    grepFile { sampleWorker with
        filterHints := { testCond := Bool3.bool3false, autogenCond := Bool3.bool3unset } } 1
      fsSample parseSample hitsSample filterTrue "a_test.go" =
      ({ sampleWorker with
        filterHints := { testCond := Bool3.bool3false, autogenCond := Bool3.bool3unset } },
        0, none) ∧
    grepFile sampleWorker 1 (fun _ => Except.error "io") parseSample hitsSample
      filterTrue "a.go" = (sampleWorker, 0, some ("read file: " ++ "io")) ∧
    grepFile sampleWorker 1 fsSample (fun _ _ => Except.error "bad syntax")
      hitsSample filterTrue "a.go" = ({ sampleWorker with fset := 1 }, 0, some "bad syntax") ∧
    grepFile { sampleWorker with
        filterHints := { testCond := Bool3.bool3unset, autogenCond := Bool3.bool3true } } 1
      fsSample parseSample hitsSample filterTrue "a.go" =
      ({ { sampleWorker with
        filterHints := { testCond := Bool3.bool3unset, autogenCond := Bool3.bool3true } }
        with fset := 1 }, 0, none) :=
  ⟨(grepFile_early_return_frame { sampleWorker with heatmapFilenameSet := some [] } 1
      fsSample parseSample hitsSample filterTrue "a.go").1 (by decide),
   (grepFile_early_return_frame { sampleWorker with
        filterHints := { testCond := Bool3.bool3false, autogenCond := Bool3.bool3unset } } 1
      fsSample parseSample hitsSample filterTrue "a_test.go").2.1 rfl (by decide),
   (grepFile_early_return_frame sampleWorker 1 (fun _ => Except.error "io") parseSample
      hitsSample filterTrue "a.go").2.2.1 "io" rfl rfl rfl,
   (grepFile_early_return_frame sampleWorker 1 fsSample (fun _ _ => Except.error "bad syntax")
      hitsSample filterTrue "a.go").2.2.2.1 [97] "bad syntax" rfl rfl rfl rfl,
   (grepFile_early_return_frame { sampleWorker with
        filterHints := { testCond := Bool3.bool3unset, autogenCond := Bool3.bool3true } } 1
      fsSample parseSample hitsSample filterTrue "a.go").2.2.2.2
      [97] { pkgName := "main", comments := [] } rfl rfl rfl rfl (by decide)⟩
